import Mathlib

/-!
Verification development for the form-state manager in `src/Formik.tsx`.

The program is a React component class orchestrating three validation
sources, merging their error trees, and maintaining a mutable form state
under a liveness flag.  This file gives a shallow embedding:

* `JVal` models JavaScript values (the nested value / error / touched
  trees); structural equality on `JVal` corresponds to JS deep equality
  (react-fast-compare), while JS reference identity is modelled
  separately, by natural-number references, where a claim depends on it.
* `deepmerge` / `arrayMergeGo` embed the deepmerge library routine with
  the custom `arrayMerge` from `Formik.tsx` (lines 721-738).  Cloning is
  the identity in this pure embedding, since a deepmerge clone is
  structure-preserving.
* `FormikState` models the state holder: the React state fields plus the
  `initialValues` and `didMount` instance fields.  `setStateIfMounted`
  models `React.Component.setState`, an external collaborator that drops
  updates (and their callbacks) on unmounted components; `didMount` is set
  in `componentDidMount` and cleared in `componentWillUnmount`, so after
  teardown it coincides with being unmounted.
* `runValidations` (over `OrchState`) embeds the identity-memoization
  logic of `runValidations` / `runValidationSchema` / `runValidateHandler`
  (lines 245-347) at the level of object references and invocation
  counters, which is exactly what the identity-cache claims are about.
-/

/-- JavaScript values as used by the form trees: `undef` is `undefined`,
`obj` a plain object given by its ordered field list, `arr` an array. -/
inductive JVal where
  | undef : JVal
  | bool : Bool → JVal
  | num : Int → JVal
  | str : String → JVal
  | obj : List (String × JVal) → JVal
  | arr : List JVal → JVal
  deriving Repr

mutual

/-- Structural (deep) equality test on `JVal`, mirroring what
react-fast-compare's `isEqual` computes on these values. -/
def JVal.beq : JVal → JVal → Bool
  | JVal.undef, JVal.undef => true
  | JVal.bool a, JVal.bool b => a == b
  | JVal.num a, JVal.num b => a == b
  | JVal.str a, JVal.str b => a == b
  | JVal.obj fs, JVal.obj gs => JVal.beqFields fs gs
  | JVal.arr xs, JVal.arr ys => JVal.beqList xs ys
  | _, _ => false

/-- Field-list part of `JVal.beq`. -/
def JVal.beqFields : List (String × JVal) → List (String × JVal) → Bool
  | [], [] => true
  | (k, v) :: fs, (l, w) :: gs => k == l && JVal.beq v w && JVal.beqFields fs gs
  | _, _ => false

/-- Array part of `JVal.beq`. -/
def JVal.beqList : List JVal → List JVal → Bool
  | [], [] => true
  | x :: xs, y :: ys => JVal.beq x y && JVal.beqList xs ys
  | _, _ => false

end

mutual

theorem JVal.beq_iff : ∀ (a b : JVal), (JVal.beq a b = true) ↔ a = b
  | JVal.undef, b => by cases b <;> simp [JVal.beq]
  | JVal.bool x, b => by cases b <;> simp [JVal.beq]
  | JVal.num x, b => by cases b <;> simp [JVal.beq]
  | JVal.str x, b => by cases b <;> simp [JVal.beq]
  | JVal.obj fs, b => by
      cases b <;> simp [JVal.beq]
      exact JVal.beqFields_iff fs _
  | JVal.arr xs, b => by
      cases b <;> simp [JVal.beq]
      exact JVal.beqList_iff xs _

theorem JVal.beqFields_iff :
    ∀ (fs gs : List (String × JVal)), (JVal.beqFields fs gs = true) ↔ fs = gs
  | [], gs => by cases gs <;> simp [JVal.beqFields]
  | (k, v) :: fs, [] => by simp [JVal.beqFields]
  | (k, v) :: fs, (l, w) :: gs => by
      simp [JVal.beqFields, JVal.beq_iff v w, JVal.beqFields_iff fs gs,
        Prod.ext_iff, and_assoc]

theorem JVal.beqList_iff :
    ∀ (xs ys : List JVal), (JVal.beqList xs ys = true) ↔ xs = ys
  | [], ys => by cases ys <;> simp [JVal.beqList]
  | x :: xs, [] => by simp [JVal.beqList]
  | x :: xs, y :: ys => by
      simp [JVal.beqList, JVal.beq_iff x y, JVal.beqList_iff xs ys]

end

instance : DecidableEq JVal := fun a b =>
  decidable_of_iff (JVal.beq a b = true) (JVal.beq_iff a b)

/-- JavaScript truthiness of a value. -/
def JVal.truthy : JVal → Bool
  | JVal.undef => false
  | JVal.bool b => b
  | JVal.num n => decide (n ≠ 0)
  | JVal.str s => decide (s ≠ "")
  | JVal.obj _ => true
  | JVal.arr _ => true

/-- Values the deepmerge library treats as mergeable (its default
`isMergeableObject`): plain objects and arrays. -/
def JVal.isMergeable : JVal → Bool
  | JVal.obj _ => true
  | JVal.arr _ => true
  | _ => false

/-- First-occurrence key lookup in an object's field list, i.e. the JS
property read `object[key]` (returning `none` for an absent property). -/
def lookupField : List (String × JVal) → String → Option JVal
  | [], _ => none
  | (k, v) :: fs, key => if k = key then some v else lookupField fs key

/-- Property assignment `object[key] = x` on an object's field list:
overwrites the existing entry in place (JS preserves insertion order for
existing keys) or appends a new one. -/
def setField : List (String × JVal) → String → JVal → List (String × JVal)
  | [], key, x => [(key, x)]
  | (k, v) :: fs, key, x =>
    if k = key then (k, x) :: fs else (k, v) :: setField fs key x

mutual

/-- The deepmerge library routine as configured by `runValidations`
(`deepmerge` with the custom `arrayMerge` of Formik.tsx lines 721-738 and
the default `clone: true`).  A non-mergeable source (or a source whose
kind differs from the target's) yields the source: deepmerge clones it,
and cloning is the identity in this pure embedding. -/
def deepmerge : JVal → JVal → JVal
  | JVal.obj tf, JVal.obj sf => JVal.obj (mergeFieldsGo tf tf sf)
  | JVal.arr ts, JVal.arr ss => JVal.arr (arrayMergeGo ts 0 ts ss)
  | _, s => s
termination_by structural _ s => s

/-- deepmerge's `mergeObject` loop: `dest` starts as a copy of the target
fields `tf`; each source field is assigned over it, recursing when the key
is present on the target and the source value is mergeable. -/
def mergeFieldsGo (tf : List (String × JVal)) (dest : List (String × JVal)) :
    List (String × JVal) → List (String × JVal)
  | [] => dest
  | (k, v) :: rest =>
    let newVal :=
      match lookupField tf k with
      | some tv => if v.isMergeable then deepmerge tv v else v
      | none => v
    mergeFieldsGo tf (setField dest k newVal) rest
termination_by structural sf => sf

/-- The custom `arrayMerge` loop (Formik.tsx lines 721-738).
`dest` starts as `target.slice()`; for each source element `e` at index
`i`: if `destination[i]` is undefined the element is written there (the
clone, identity here); else if `e` is mergeable, `destination[i] :=
deepmerge(target[i], e)`; else `e` is appended unless already present in
the target (JS `indexOf` uses `===`, which on the primitives reaching this
branch is structural equality).  The loop maintains `i ≤ dest.length`, so
the out-of-range write is an append. -/
def arrayMergeGo (ts : List JVal) (i : Nat) (dest : List JVal) :
    List JVal → List JVal
  | [] => dest
  | e :: rest =>
    let cur := dest.getD i JVal.undef
    let dest2 :=
      if cur = JVal.undef then
        if i < dest.length then dest.set i e else dest ++ [e]
      else if e.isMergeable then
        dest.set i (deepmerge (ts.getD i JVal.undef) e)
      else if e ∈ ts then dest
      else dest ++ [e]
    arrayMergeGo ts (i + 1) dest2 rest
termination_by structural ss => ss

end

/-- Entry point matching `arrayMerge(target, source, options)`:
`destination = target.slice()` then the element loop. -/
def arrayMerge (target source : List JVal) : List JVal :=
  arrayMergeGo target 0 target source

mutual

/-- Well-formedness of a value as a JavaScript datum: no object node
carries a duplicate key (a JS object cannot). -/
def JVal.wf : JVal → Bool
  | JVal.obj fs => fieldsWf fs
  | JVal.arr xs => listWf xs
  | _ => true
termination_by structural v => v

/-- Field lists with pairwise-distinct keys and well-formed values. -/
def fieldsWf : List (String × JVal) → Bool
  | [] => true
  | (k, v) :: fs => !(lookupField fs k).isSome && JVal.wf v && fieldsWf fs
termination_by structural fs => fs

/-- Arrays of well-formed values. -/
def listWf : List JVal → Bool
  | [] => true
  | x :: xs => JVal.wf x && listWf xs
termination_by structural xs => xs

end

theorem lookupField_isSome_of_mem :
    ∀ {fs : List (String × JVal)} {k : String} {v : JVal},
      (k, v) ∈ fs → (lookupField fs k).isSome = true := by
  intro fs
  induction fs with
  | nil => intro k v h; cases h
  | cons hd tl ih =>
    intro k v h
    obtain ⟨k0, v0⟩ := hd
    rcases List.mem_cons.mp h with h1 | h1
    · cases h1; simp [lookupField]
    · by_cases hk : k0 = k
      · simp [lookupField, hk]
      · simpa [lookupField, hk] using ih h1

theorem fieldsWf_lookup :
    ∀ {fs : List (String × JVal)} {k : String} {v : JVal},
      fieldsWf fs = true → (k, v) ∈ fs → lookupField fs k = some v := by
  intro fs
  induction fs with
  | nil => intro k v _ h; cases h
  | cons hd tl ih =>
    intro k v hwf h
    obtain ⟨k0, v0⟩ := hd
    simp only [fieldsWf, Bool.and_eq_true, Bool.not_eq_true'] at hwf
    rcases List.mem_cons.mp h with h1 | h1
    · cases h1; simp [lookupField]
    · by_cases hk : k0 = k
      · exfalso
        have := lookupField_isSome_of_mem (k := k) (v := v) h1
        rw [hk] at hwf
        simp [this] at hwf
      · simpa [lookupField, hk] using ih hwf.2 h1

theorem fieldsWf_mem_wf :
    ∀ {fs : List (String × JVal)} {k : String} {v : JVal},
      fieldsWf fs = true → (k, v) ∈ fs → JVal.wf v = true := by
  intro fs
  induction fs with
  | nil => intro k v _ h; cases h
  | cons hd tl ih =>
    intro k v hwf h
    obtain ⟨k0, v0⟩ := hd
    simp only [fieldsWf, Bool.and_eq_true] at hwf
    rcases List.mem_cons.mp h with h1 | h1
    · cases h1; exact hwf.1.2
    · exact ih hwf.2 h1

theorem listWf_mem :
    ∀ {xs : List JVal} {x : JVal}, listWf xs = true → x ∈ xs → JVal.wf x = true := by
  intro xs
  induction xs with
  | nil => intro x _ h; cases h
  | cons hd tl ih =>
    intro x hwf h
    simp only [listWf, Bool.and_eq_true] at hwf
    rcases List.mem_cons.mp h with h1 | h1
    · cases h1; exact hwf.1
    · exact ih hwf.2 h1

theorem setField_lookup_self :
    ∀ {fs : List (String × JVal)} {k : String} {v : JVal},
      lookupField fs k = some v → setField fs k v = fs := by
  intro fs
  induction fs with
  | nil => intro k v h; simp [lookupField] at h
  | cons hd tl ih =>
    intro k v h
    obtain ⟨k0, v0⟩ := hd
    by_cases hk : k0 = k
    · simp [lookupField, hk] at h
      simp [setField, hk, h]
    · simp [lookupField, hk] at h
      simp [setField, hk, ih h]

theorem set_append_len (pre : List JVal) (x y : JVal) (rest : List JVal) :
    (pre ++ x :: rest).set pre.length y = pre ++ y :: rest := by
  induction pre with
  | nil => simp
  | cons hd tl ih => simp [List.set, ih]

theorem getD_append_len (pre : List JVal) (x : JVal) (rest : List JVal) :
    (pre ++ x :: rest).getD pre.length JVal.undef = x := by
  induction pre with
  | nil => simp [List.getD]
  | cons hd tl ih => simpa [List.getD] using ih

theorem mergeFieldsGo_self (tf : List (String × JVal))
    (h : ∀ kv : String × JVal, kv ∈ tf →
      lookupField tf kv.1 = some kv.2 ∧ deepmerge kv.2 kv.2 = kv.2) :
    ∀ sf, (∀ kv : String × JVal, kv ∈ sf → kv ∈ tf) → mergeFieldsGo tf tf sf = tf := by
  intro sf
  induction sf with
  | nil => intro _; simp [mergeFieldsGo]
  | cons kv rest ih =>
    intro hsub
    obtain ⟨k, v⟩ := kv
    have hmem : (k, v) ∈ tf := hsub _ (List.mem_cons_self _ _)
    obtain ⟨hl, hid⟩ := h (k, v) hmem
    have hnew : (match lookupField tf k with
      | some tv => if v.isMergeable then deepmerge tv v else v
      | none => v) = v := by
      rw [hl]
      by_cases hm : v.isMergeable = true <;> simp [hm, hid]
    rw [mergeFieldsGo]
    simp only [hnew, setField_lookup_self hl]
    exact ih (fun kv hkv => hsub kv (List.mem_cons_of_mem _ hkv))

theorem arrayMergeGo_self (ts : List JVal) (h : ∀ x ∈ ts, deepmerge x x = x) :
    ∀ suf pre, ts = pre ++ suf → arrayMergeGo ts pre.length ts suf = ts := by
  intro suf
  induction suf with
  | nil => intro pre hpre; simp [arrayMergeGo]
  | cons e rest ih =>
    intro pre hpre
    have hget : ts.getD pre.length JVal.undef = e := by
      rw [hpre]; exact getD_append_len pre e rest
    have hlen : pre.length < ts.length := by rw [hpre]; simp
    have hmem : e ∈ ts := by rw [hpre]; simp
    have hset : ts.set pre.length e = ts := by
      conv_lhs => rw [hpre]
      rw [set_append_len, hpre]
    have hrec : arrayMergeGo ts (pre.length + 1) ts rest = ts := by
      have hpre2 : ts = (pre ++ [e]) ++ rest := by simpa using hpre
      have := ih (pre ++ [e]) hpre2
      simpa using this
    rw [arrayMergeGo]
    simp only [hget]
    by_cases he : e = JVal.undef
    · subst he
      simp [hlen, hset, hrec]
    · by_cases hm : e.isMergeable = true
      · simp [he, hm, h e hmem, hset, hrec]
      · simp [he, hm, hmem, hrec]

/-- Deep merge of a well-formed tree with itself is the tree itself. -/
theorem deepmerge_idem : ∀ (e : JVal), JVal.wf e = true → deepmerge e e = e
  | JVal.undef, _ => by simp [deepmerge]
  | JVal.bool b, _ => by simp [deepmerge]
  | JVal.num n, _ => by simp [deepmerge]
  | JVal.str s, _ => by simp [deepmerge]
  | JVal.obj tf, h => by
      have hwf : fieldsWf tf = true := by simpa [JVal.wf] using h
      have hfacts : ∀ kv : String × JVal, kv ∈ tf →
          lookupField tf kv.1 = some kv.2 ∧ deepmerge kv.2 kv.2 = kv.2 := by
        intro kv hm
        obtain ⟨k, v⟩ := kv
        exact ⟨fieldsWf_lookup hwf hm,
          deepmerge_idem v (fieldsWf_mem_wf hwf hm)⟩
      rw [deepmerge]
      exact congrArg JVal.obj (mergeFieldsGo_self tf hfacts tf (fun _ hm => hm))
  | JVal.arr ts, h => by
      have hwf : listWf ts = true := by simpa [JVal.wf] using h
      have hfacts : ∀ x ∈ ts, deepmerge x x = x := fun x hm =>
        deepmerge_idem x (listWf_mem hwf hm)
      rw [deepmerge]
      exact congrArg JVal.arr (arrayMergeGo_self ts hfacts ts [] rfl)
termination_by e _ => sizeOf e
decreasing_by
  · have h1 := List.sizeOf_lt_of_mem hm
    simp at h1 ⊢
    omega
  · have h1 := List.sizeOf_lt_of_mem hm
    simp at h1 ⊢
    omega

/-- Modelled from the spec: the path-addressed store's `set` operation
(`setIn` from the utilities module, which is not part of the provided
source).  Per §4.1 it returns a new root with the value placed at the
dotted path, creating intermediate mapping nodes for missing or
non-mapping segments; only dotted paths are exercised by the claims, so
bracket/array segments are not modelled. -/
def setInPath : JVal → List String → JVal → JVal
  | _, [], v => v
  | root, k :: rest, v =>
    let child :=
      match root with
      | JVal.obj fs => (lookupField fs k).getD JVal.undef
      | _ => JVal.undef
    let newChild := setInPath child rest v
    match root with
    | JVal.obj fs => JVal.obj (setField fs k newChild)
    | _ => JVal.obj [(k, newChild)]

/-- Dotted-path segmentation: split a path string at each `.` character
(the behavior of splitting on a one-character separator). -/
def splitPathAux : List Char → List Char → List String
  | [], acc => [String.mk acc.reverse]
  | c :: cs, acc =>
    if c = '.' then String.mk acc.reverse :: splitPathAux cs []
    else splitPathAux cs (c :: acc)

/-- Dotted-path segmentation of a path string. -/
def splitOnDot (s : String) : List String := splitPathAux s.data []

/-- Modelled from the spec: `setIn(root, path, value)` splits the dotted
path into segments and writes along them. -/
def setIn (root : JVal) (path : String) (v : JVal) : JVal :=
  setInPath root (splitOnDot path) v

/-- Direct JS property read `object[key]` on a value: a top-level lookup
of the literal key string (a dotted string is just an ordinary key here —
no path traversal happens), `undefined` when absent or not an object. -/
def jsGetProp : JVal → String → JVal
  | JVal.obj fs, key => (lookupField fs key).getD JVal.undef
  | _, _ => JVal.undef

/-- One entry of a Yup `ValidationError`'s `inner` list. -/
structure YupInnerError where
  path : String
  message : String
  deriving DecidableEq, Repr

/-- The shape of a Yup `ValidationError` consumed by `yupToFormErrors`:
its own path and message, plus the list of aggregated inner errors. -/
structure YupValidationError where
  path : String
  message : String
  inner : List YupInnerError
  deriving DecidableEq, Repr

/-- Loop body of `yupToFormErrors`: `if (!errors[err.path]) errors =
setIn(errors, err.path, err.message)` — note the guard reads the literal
whole path string as a top-level property. -/
def yupFoldStep (errors : JVal) (err : YupInnerError) : JVal :=
  if (jsGetProp errors err.path).truthy then errors
  else setIn errors err.path (JVal.str err.message)

/-- Embedding of `yupToFormErrors` (Formik.tsx lines 682-693): with an
empty inner list, set the outer message at the outer path; otherwise fold
over the inner errors, setting each message at its path unless the JS
property read `errors[err.path]` — the literal whole path string as a
top-level key — is already truthy. -/
def yupToFormErrors (yupError : YupValidationError) : JVal :=
  if yupError.inner.length = 0 then
    setIn (JVal.obj []) yupError.path (JVal.str yupError.message)
  else
    yupError.inner.foldl yupFoldStep (JVal.obj [])

/-- Record of the single schema-library call `validateYupSchema` makes:
which method it selects, the data object it passes, and the `abortEarly`
option it sets. -/
structure SchemaValidateCall where
  methodName : String
  data : List (String × JVal)
  abortEarly : Bool
  deriving DecidableEq, Repr

/-- Embedding of `validateYupSchema` (Formik.tsx lines 698-715): builds
`validateData`, a fresh object holding, for every own key of `values`,
the value unless it is the empty string, which becomes `undefined`; then
invokes `schema.validate` (or `validateSync` when `sync`) on it with
`abortEarly: false`.  The embedding is pure, so the input `values` is by
construction left unmutated; the call record returned is what reaches the
schema library. -/
def validateYupSchema (values : List (String × JVal)) (sync : Bool) :
    SchemaValidateCall :=
  { methodName := if sync then "validateSync" else "validate",
    data := values.map (fun kv => (kv.1, if kv.2 = JVal.str "" then JVal.undef else kv.2)),
    abortEarly := false }

theorem lookupField_map (f : JVal → JVal) :
    ∀ (fs : List (String × JVal)) (k : String),
      lookupField (fs.map (fun kv => (kv.1, f kv.2))) k = (lookupField fs k).map f := by
  intro fs
  induction fs with
  | nil => intro k; simp [lookupField]
  | cons hd tl ih =>
    intro k
    obtain ⟨k0, v0⟩ := hd
    by_cases hk : k0 = k <;> simp [lookupField, hk, ih]

theorem lookupField_setField :
    ∀ (fs : List (String × JVal)) (k : String) (x : JVal) (p : String),
      lookupField (setField fs k x) p = if k = p then some x else lookupField fs p := by
  intro fs
  induction fs with
  | nil =>
    intro k x p
    by_cases hk : k = p <;> simp [setField, lookupField, hk]
  | cons hd tl ih =>
    intro k x p
    obtain ⟨k0, v0⟩ := hd
    by_cases h0 : k0 = k
    · subst h0
      by_cases hp : k0 = p <;> simp [setField, lookupField, hp]
    · by_cases hp : k0 = p
      · subst hp
        have : ¬ k = k0 := fun h => h0 h.symm
        simp [setField, h0, lookupField, this]
      · simp [setField, h0, lookupField, hp, ih]

/-- Behavior of a configured `onReset` handler, as observed by
`handleReset`: it returns a non-pending value, or a pending computation
that later fulfills with a value (`JVal.undef` models a void fulfillment),
or a pending computation that rejects. -/
inductive OnResetBehavior where
  | value : OnResetBehavior
  | pendingFulfilled : JVal → OnResetBehavior
  | pendingRejected : OnResetBehavior
  deriving DecidableEq, Repr

/-- The construction configuration fields the modelled operations read:
`initialValues` and the optional external reset handler. -/
structure FormikConfig where
  initialValues : JVal
  onReset : Option OnResetBehavior
  deriving DecidableEq, Repr

/-- The Form State Holder: the React state fields of `FormikState<Values>`
(`values`, `errors`, `touched`, `status`, `error`, `isSubmitting`,
`isValidating`, `submitCount`) together with the two instance fields the
claims need — the `initialValues` snapshot and the `didMount` liveness
flag.  `errors` is an always-object tree, kept as its top-level field
list so that `Object.keys(errors).length` is its length. -/
structure FormikState where
  values : JVal
  errors : List (String × JVal)
  touched : JVal
  status : Option JVal
  error : Option JVal
  isSubmitting : Bool
  isValidating : Bool
  submitCount : Nat
  initialValues : JVal
  didMount : Bool
  deriving DecidableEq, Repr

/-- Model of `React.Component.setState` (external collaborator): the
update function is applied only while the component is mounted; React
drops updates (and their callbacks) on unmounted components.  `didMount`
is set in `componentDidMount` and cleared in `componentWillUnmount`, so
after teardown it coincides with React's mounted flag. -/
def setStateIfMounted (s : FormikState) (f : FormikState → FormikState) : FormikState :=
  if s.didMount then f s else s

/-- Embedding of `setValues` (lines 151-157): `setState({ values })`.
The setState callback conditionally triggers revalidation (§4.4), whose
own state writes are `didMount`-guarded; the claims here concern the
synchronous state write, so the callback is not modelled. -/
def setValues (s : FormikState) (values : JVal) : FormikState :=
  setStateIfMounted s (fun st => { st with values := values })

/-- Embedding of `setTouched` (lines 143-149): `setState({ touched })`,
with the revalidation callback as in `setValues`. -/
def setTouched (s : FormikState) (touched : JVal) : FormikState :=
  setStateIfMounted s (fun st => { st with touched := touched })

/-- Embedding of `setFieldValue` (lines 419-432): guarded by `didMount`,
then `setState(getStateUpdater('values.' + field, value))`, i.e. a
path-addressed write of `value` at `field` inside `values`. -/
def setFieldValue (s : FormikState) (field : String) (value : JVal) : FormikState :=
  if s.didMount then
    setStateIfMounted s (fun st => { st with values := setIn st.values field value })
  else s

/-- Embedding of `setFieldTouched` (lines 522-533):
`setState(getStateUpdater('touched.' + field, touched))`. -/
def setFieldTouched (s : FormikState) (field : String) (touched : Bool) : FormikState :=
  setStateIfMounted s
    (fun st => { st with touched := setIn st.touched field (JVal.bool touched) })

/-- Embedding of `resetForm` (lines 540-555).  `nextValues` is the JS
argument (`JVal.undef` when absent): the new values are `nextValues` when
truthy, else the configured `props.initialValues`.  The `initialValues`
instance field is written unconditionally; the state fields go through
setState. -/
def resetForm (cfg : FormikConfig) (s : FormikState) (nextValues : JVal) : FormikState :=
  let values := if nextValues.truthy then nextValues else cfg.initialValues
  let s1 := { s with initialValues := values }
  setStateIfMounted s1 (fun st =>
    { st with
      isSubmitting := false
      isValidating := false
      errors := []
      touched := JVal.obj []
      error := none
      status := none
      values := values
      submitCount := 0 })

/-- Embedding of `handleReset` (lines 557-572).  With no configured
handler, or a handler returning a non-pending value, `resetForm()` runs
immediately with no argument.  A pending handler result is chained with
`.then(this.resetForm)`: the reset is deferred until the computation
fulfills and `resetForm` receives the fulfillment value as `nextValues`;
a rejected computation has no rejection handler, so `resetForm` never
runs on that path.  (The handler itself is invoked with the current
values and the Action Facade; its invocation is not recorded here.) -/
def handleReset (cfg : FormikConfig) (s : FormikState) : FormikState :=
  match cfg.onReset with
  | none => resetForm cfg s JVal.undef
  | some OnResetBehavior.value => resetForm cfg s JVal.undef
  | some (OnResetBehavior.pendingFulfilled v) => resetForm cfg s v
  | some OnResetBehavior.pendingRejected => s

mutual

/-- Modelled from the spec: `setNestedObjectValues` from the utilities
module (not part of the provided source); per §4.1 `setAll` recursively
replaces every leaf of a structure with a constant (used to mark every
field touched on submit). -/
def setNestedObjectValues : JVal → JVal → JVal
  | JVal.obj fs, x => JVal.obj (snovFields fs x)
  | JVal.arr xs, x => JVal.arr (snovList xs x)
  | _, x => x
termination_by structural v _ => v

/-- Field part of `setNestedObjectValues`. -/
def snovFields : List (String × JVal) → JVal → List (String × JVal)
  | [], _ => []
  | (k, v) :: fs, x => (k, setNestedObjectValues v x) :: snovFields fs x
termination_by structural fs _ => fs

/-- Array part of `setNestedObjectValues`. -/
def snovList : List JVal → JVal → List JVal
  | [], _ => []
  | v :: vs, x => setNestedObjectValues v x :: snovList vs x
termination_by structural vs _ => vs

end

/-- Outcome of a `submitForm` run: the holder state afterward, whether the
external `onSubmit` handler was invoked, and with which values (plus a
marker that the Action Facade was passed alongside them). -/
structure SubmitOutcome where
  state : FormikState
  onSubmitCalled : Bool
  onSubmitValues : Option JVal
  onSubmitActionsPassed : Bool
  deriving DecidableEq, Repr

/-- Embedding of `executeSubmit` (lines 488-490):
`this.props.onSubmit(this.state.values, this.getFormikActions())` —
unconditionally, with no liveness check. -/
def executeSubmit (s : FormikState) : SubmitOutcome :=
  { state := s
    onSubmitCalled := true
    onSubmitValues := some s.values
    onSubmitActionsPassed := true }

/-- Synchronous first phase of `submitForm` (lines 466-475): one setState
marking every value leaf touched, setting `isSubmitting := true` and
incrementing `submitCount`. -/
def submitFormStart (s : FormikState) : FormikState :=
  setStateIfMounted s (fun st =>
    { st with
      touched := setNestedObjectValues st.values (JVal.bool true)
      isSubmitting := true
      submitCount := st.submitCount + 1 })

/-- Continuation of `submitForm` (lines 477-485) once the orchestrated
validation promise resolves with `combinedErrors` (the merged error
tree's top-level fields, universally quantified in the theorems): if it
has zero keys, `executeSubmit` runs — with no liveness check; otherwise
`isSubmitting := false` is written only if the holder is still mounted.
During the pending validation, `runValidations` itself writes only
`isValidating`/`errors` (both `didMount`-guarded), never the fields this
branch inspects. -/
def submitFormSettle (s : FormikState) (combinedErrors : List (String × JVal)) :
    SubmitOutcome :=
  if combinedErrors.length = 0 then
    executeSubmit s
  else if s.didMount then
    { state := { s with isSubmitting := false }
      onSubmitCalled := false
      onSubmitValues := none
      onSubmitActionsPassed := false }
  else
    { state := s
      onSubmitCalled := false
      onSubmitValues := none
      onSubmitActionsPassed := false }

/-- Whole `submitForm` run: the synchronous start phase at liveness
`s.didMount`, then the settle phase at liveness `didMountAtSettle` (the
holder may be torn down while validation is pending). -/
def submitForm (s : FormikState) (combinedErrors : List (String × JVal))
    (didMountAtSettle : Bool) : SubmitOutcome :=
  submitFormSettle { submitFormStart s with didMount := didMountAtSettle } combinedErrors

/-- The configured `isInitialValid` prop: a boolean or a function of the
props. -/
inductive IsInitialValidProp (P : Type) where
  | bool : Bool → IsInitialValidProp P
  | func : (P → Bool) → IsInitialValidProp P

/-- The JS comparison `isInitialValid !== false`. -/
def IsInitialValidProp.neFalse {P : Type} : IsInitialValidProp P → Bool
  | IsInitialValidProp.bool b => b
  | IsInitialValidProp.func _ => true

/-- The `isFunction(isInitialValid)` test. -/
def IsInitialValidProp.isFunc {P : Type} : IsInitialValidProp P → Bool
  | IsInitialValidProp.bool _ => false
  | IsInitialValidProp.func _ => true

/-- The call `isInitialValid(this.props)` (only reached for functions). -/
def IsInitialValidProp.call {P : Type} (p : P) : IsInitialValidProp P → Bool
  | IsInitialValidProp.bool b => b
  | IsInitialValidProp.func f => f p

/-- The cast `isInitialValid as boolean` (only reached for non-functions;
a function coerced to boolean would be truthy). -/
def IsInitialValidProp.asBool {P : Type} : IsInitialValidProp P → Bool
  | IsInitialValidProp.bool b => b
  | IsInitialValidProp.func _ => true

/-- The derived bag of `getFormikComputedProps`. -/
structure FormikComputedProps where
  dirty : Bool
  isValid : Bool
  initialValues : JVal

/-- Embedding of `getFormikComputedProps` (lines 596-608): `dirty` is
deep inequality of the `initialValues` snapshot and the current values
(react-fast-compare `isEqual`, structural equality here); `isValid` is,
when dirty, `errors` having zero keys, and otherwise the
`isInitialValid !== false && isFunction(isInitialValid) ? call : cast`
chain. -/
def getFormikComputedProps {P : Type} (isInitialValid : IsInitialValidProp P)
    (props : P) (s : FormikState) : FormikComputedProps :=
  let dirty := !(decide (s.initialValues = s.values))
  { dirty := dirty
    isValid :=
      if dirty then s.errors.isEmpty
      else if isInitialValid.neFalse && isInitialValid.isFunc then
        isInitialValid.call props
      else isInitialValid.asBool
    initialValues := s.initialValues }

/-- Object references (JS identity).  Distinct numbers model distinct
object identities; `emptyObjectRef` is the module-level shared
`emptyObject`. -/
abbrev Ref := Nat

/-- The shared frozen `emptyObject` (Formik.tsx lines 36-38): one fixed
reference returned whenever a validation source yields no errors. -/
def emptyObjectRef : Ref := 0

/-- Identity-cache state of the Validation Orchestrator: the three
last-call records (`lastValidationResults`, `lastYupValidationResult`,
`lastValidateHandlerResult`, lines 64-72), plus invocation counters for
the external validator functions and the merge, and an allocation counter
producing fresh references. -/
structure OrchState where
  lastValidationResults : Option (List Ref × Ref) := none
  lastYupValidationResult : Option (List Ref × Ref) := none
  lastValidateHandlerResult : Option (Ref × Ref) := none
  fieldValidatorCalls : Nat := 0
  schemaValidateCalls : Nat := 0
  validateHandlerCalls : Nat := 0
  mergeCalls : Nat := 0
  fresh : Ref := 1
  deriving DecidableEq, Repr

/-- Allocate a fresh object reference (a newly created object, array or
promise). -/
def OrchState.alloc (st : OrchState) : Ref × OrchState :=
  (st.fresh, { st with fresh := st.fresh + 1 })

/-- The element-wise reference-equality check
`key.every((el, i) => el === last.key[i])` against an optional last-call
record. -/
def cacheLookup (entry : Option (List Ref × Ref)) (key : List Ref) : Option Ref :=
  match entry with
  | some kr => if kr.1 = key then some kr.2 else none
  | none => none

/-- The single-key variant used by `runValidateHandler`:
`!last || last.key[0] !== promise`. -/
def cacheLookup1 (entry : Option (Ref × Ref)) (key : Ref) : Option Ref :=
  match entry with
  | some kr => if kr.1 = key then some kr.2 else none
  | none => none

/-- What the user-supplied whole-form `validate` prop returns on each
call: `undefined`, the same errors object every time, a fresh errors
object every time, the same promise every time (e.g. a memoized
validator), or a fresh promise every time. -/
inductive ValidateHandlerBehavior where
  | returnsUndefined : ValidateHandlerBehavior
  | returnsStableObject : Ref → ValidateHandlerBehavior
  | returnsFreshObject : ValidateHandlerBehavior
  | returnsStablePromise : Ref → ValidateHandlerBehavior
  | returnsFreshPromise : ValidateHandlerBehavior
  deriving DecidableEq, Repr

/-- What the `validationSchema` prop resolves to on each call of
`runValidationSchema` (lines 277-279 re-resolve it every time:
`isFunction(validationSchema) ? validationSchema() : validationSchema`):
a plain schema object (one fixed reference), a zero-arg factory returning
the same schema object every call, or a factory returning a fresh schema
object every call. -/
inductive ValidationSchemaBehavior where
  | schemaObject : Ref → ValidationSchemaBehavior
  | factoryStable : Ref → ValidationSchemaBehavior
  | factoryFresh : ValidationSchemaBehavior
  deriving DecidableEq, Repr

/-- Orchestrator configuration: the registered fields that carry a
field-level validator, which of them produce a truthy error message and
which of them return a promise on a given values reference (validators
modelled deterministic), whether a `validationSchema` / `validate` prop
is configured, the schema prop's per-call resolution behavior, and the
`validate` prop's return behavior. -/
structure OrchConfig where
  fieldsWithValidation : List String
  fieldError : Ref → String → Bool
  fieldValidatorAsync : Ref → String → Bool
  hasValidationSchema : Bool
  schemaBehavior : ValidationSchemaBehavior
  hasValidateProp : Bool
  validateBehavior : ValidateHandlerBehavior

/-- Embedding of `runFieldLevelValidations` (lines 213-243): every
registered field-level validator is invoked on every call — there is no
cache in front of them.  When some validator returns a promise, the
result is `Promise.all(fieldValidations).then(callback)`: a freshly
allocated promise reference on every call, even if no validator produces
an error.  Otherwise the results reduce synchronously onto `emptyObject`
via `setIn`, so the result is the shared `emptyObjectRef` exactly when no
validator produced a truthy message, and a freshly built tree
otherwise. -/
def runFieldLevelValidations (cfg : OrchConfig) (valuesRef : Ref)
    (st : OrchState) : Ref × OrchState :=
  let st1 := { st with
    fieldValidatorCalls := st.fieldValidatorCalls + cfg.fieldsWithValidation.length }
  if cfg.fieldsWithValidation.any (fun f => cfg.fieldValidatorAsync valuesRef f) then
    st1.alloc
  else if cfg.fieldsWithValidation.all (fun f => !(cfg.fieldError valuesRef f)) then
    (emptyObjectRef, st1)
  else st1.alloc

/-- Embedding of `runValidationSchema` (lines 273-297): the schema prop
is re-resolved on every call (`isFunction(validationSchema) ?
validationSchema() : validationSchema`, so a factory returning a fresh
object yields a new schema reference each time); the cache key is
`[schema, values]` by reference; on a full identity match the stored
result promise is reused and the schema's validate operation is not
invoked; otherwise `validateYupSchema(values, schema).then(...)` runs,
producing a fresh result promise that is stored under the new key. -/
def runValidationSchema (cfg : OrchConfig) (valuesRef : Ref)
    (st : OrchState) : Ref × OrchState :=
  let (schemaRef, st1) :=
    match cfg.schemaBehavior with
    | ValidationSchemaBehavior.schemaObject r => (r, st)
    | ValidationSchemaBehavior.factoryStable r => (r, st)
    | ValidationSchemaBehavior.factoryFresh => st.alloc
  let cacheKey := [schemaRef, valuesRef]
  match cacheLookup st1.lastYupValidationResult cacheKey with
  | some r => (r, st1)
  | none =>
    let st2 := { st1 with schemaValidateCalls := st1.schemaValidateCalls + 1 }
    let (r, st3) := st2.alloc
    (r, { st3 with lastYupValidationResult := some (cacheKey, r) })

/-- Embedding of `runValidateHandler` (lines 245-268): the `validate`
prop is invoked on every call.  An `undefined` return maps to the shared
`emptyObject`; a non-promise errors object is returned as is; a promise
return is normalized through `.then(() => emptyObject, errs => errs)`,
with the normalized promise cached under the identity of the promise the
handler returned. -/
def runValidateHandler (cfg : OrchConfig) (valuesRef : Ref)
    (st : OrchState) : Ref × OrchState :=
  let st1 := { st with validateHandlerCalls := st.validateHandlerCalls + 1 }
  match cfg.validateBehavior with
  | ValidateHandlerBehavior.returnsUndefined => (emptyObjectRef, st1)
  | ValidateHandlerBehavior.returnsStableObject r => (r, st1)
  | ValidateHandlerBehavior.returnsFreshObject => st1.alloc
  | ValidateHandlerBehavior.returnsStablePromise p =>
    (match cacheLookup1 st1.lastValidateHandlerResult p with
     | some r => (r, st1)
     | none =>
       let (r, st2) := st1.alloc
       (r, { st2 with lastValidateHandlerResult := some (p, r) }))
  | ValidateHandlerBehavior.returnsFreshPromise =>
    let (p, st2) := st1.alloc
    (match cacheLookup1 st2.lastValidateHandlerResult p with
     | some r => (r, st2)
     | none =>
       let (r, st3) := st2.alloc
       (r, { st3 with lastValidateHandlerResult := some (p, r) }))

/-- Embedding of `runValidations` (lines 302-347) at the reference level.
The three per-source invocations are built first — which already invokes
every field-level validator and the `validate` prop — then the combined
cache is checked: if all three result references are identical to the
previous run's, the previous merged tree reference is reused; otherwise
the three results are awaited and deep-merged into a freshly allocated
tree, stored under the three result identities.  The `isValidating` /
`errors` state writes (both liveness-guarded) do not touch the caches and
are not modelled; the surrounding `ThrottledAction` serializes runs, so
two sequential settled calls compose as plain function composition. -/
def runValidations (cfg : OrchConfig) (valuesRef : Ref)
    (st : OrchState) : Ref × OrchState :=
  let (r1, st1) := runFieldLevelValidations cfg valuesRef st
  let (r2, st2) :=
    if cfg.hasValidationSchema then runValidationSchema cfg valuesRef st1
    else (emptyObjectRef, st1)
  let (r3, st3) :=
    if cfg.hasValidateProp then runValidateHandler cfg valuesRef st2
    else (emptyObjectRef, st2)
  let validationResults := [r1, r2, r3]
  match cacheLookup st3.lastValidationResults validationResults with
  | some combinedErrors => (combinedErrors, st3)
  | none =>
    let st4 := { st3 with mergeCalls := st3.mergeCalls + 1 }
    let (m, st5) := st4.alloc
    (m, { st5 with lastValidationResults := some (validationResults, m) })

theorem submitFormStart_values (s : FormikState) :
    (submitFormStart s).values = s.values := by
  by_cases h : s.didMount <;> simp [submitFormStart, setStateIfMounted, h]

/-- C8: the array-aware deep merge of any well-formed error tree with
itself is structurally equal to the tree (idempotence), under the
`arrayMerge` rule that fills missing indices by cloning, recurses on
mergeable elements, and skips a primitive element already present in the
target sequence. -/
theorem claim_C8_merge_idempotent (e : JVal) (hwf : JVal.wf e = true) :
    deepmerge e e = e :=
  deepmerge_idem e hwf

/-- Concrete error tree exercising object, array, primitive and nested
cases for the C8 witness. -/
def c8Tree : JVal :=
  JVal.obj
    [("a", JVal.str "required"),
     ("b", JVal.arr [JVal.str "x", JVal.obj [("c", JVal.str "m")], JVal.undef]),
     ("d", JVal.obj [("e", JVal.str "")])]

theorem claim_C8_witness :
    JVal.wf c8Tree = true ∧ deepmerge c8Tree c8Tree = c8Tree :=
  ⟨by decide, claim_C8_merge_idempotent c8Tree (by decide)⟩

/-- C6: `validateYupSchema` configures the schema call with
`abortEarly: false` (collect all violations) and passes a sanitized copy
of the values in which exactly the empty-string values are replaced by
`undefined` and every other value is passed through unchanged (the input
mapping itself is untouched — the copy is a fresh object). -/
theorem claim_C6_validateYupSchema_sanitizes (values : List (String × JVal))
    (sync : Bool) :
    (validateYupSchema values sync).abortEarly = false ∧
    ∀ k : String,
      lookupField (validateYupSchema values sync).data k =
        (lookupField values k).map
          (fun v => if v = JVal.str "" then JVal.undef else v) := by
  constructor
  · rfl
  · intro k
    simpa [validateYupSchema] using
      lookupField_map (fun v => if v = JVal.str "" then JVal.undef else v) values k

/-- C9: the derived `isValid` equals emptiness of `errors` exactly when
the form is dirty (values deep-unequal to the `initialValues` snapshot),
and otherwise equals the configured `isInitialValid` — called with the
props when it is a function, used as a boolean when not — never
re-derived from actual validation in the non-dirty case. -/
theorem claim_C9_isValid_derivation {P : Type}
    (isInitialValid : IsInitialValidProp P) (props : P) (s : FormikState) :
    (getFormikComputedProps isInitialValid props s).isValid =
      (if s.initialValues = s.values then
        (match isInitialValid with
         | IsInitialValidProp.bool b => b
         | IsInitialValidProp.func f => f props)
      else s.errors.isEmpty) := by
  by_cases h : s.initialValues = s.values <;>
    cases isInitialValid <;>
      simp [getFormikComputedProps, h, IsInitialValidProp.neFalse,
        IsInitialValidProp.isFunc, IsInitialValidProp.call,
        IsInitialValidProp.asBool]

/-- C3: each of the four field mutation setters is a no-op on the whole
`FormikState` when the holder is not live (post-teardown):
`setFieldValue` by its explicit `didMount` guard, and all four because
React drops setState updates and callbacks on an unmounted component. -/
theorem claim_C3_setters_noop_post_teardown (s : FormikState)
    (hdead : s.didMount = false) (field : String) (value : JVal)
    (values : JVal) (touchedTree : JVal) (touchedFlag : Bool) :
    setFieldValue s field value = s ∧ setValues s values = s ∧
    setTouched s touchedTree = s ∧ setFieldTouched s field touchedFlag = s := by
  simp [setFieldValue, setValues, setTouched, setFieldTouched,
    setStateIfMounted, hdead]

/-- Concrete torn-down holder state for the C3 witness. -/
def deadState : FormikState :=
  { values := JVal.obj [("a", JVal.str "x")]
    errors := [("a", JVal.str "bad")]
    touched := JVal.obj [("a", JVal.bool true)]
    status := none
    error := none
    isSubmitting := true
    isValidating := false
    submitCount := 2
    initialValues := JVal.obj [("a", JVal.str "x")]
    didMount := false }

theorem claim_C3_witness :
    deadState.didMount = false ∧
    (setFieldValue deadState "a" (JVal.str "y") = deadState ∧
     setValues deadState (JVal.obj []) = deadState ∧
     setTouched deadState (JVal.obj []) = deadState ∧
     setFieldTouched deadState "a" true = deadState) :=
  ⟨rfl, claim_C3_setters_noop_post_teardown deadState rfl "a" (JVal.str "y")
    (JVal.obj []) (JVal.obj []) true⟩

/-- C7: on a live holder, `resetForm()` (no argument) restores `values`
and the stored `initialValues` snapshot to the configured initial values,
clears `errors` and `touched` to empty trees, clears `status`, and resets
`submitCount` to 0 and `isSubmitting`/`isValidating` to false, from any
prior state; `resetForm(nextValues)` with a truthy argument does the same
with `nextValues` as the new values and snapshot. -/
theorem claim_C7_resetForm_restores (cfg : FormikConfig) (s : FormikState)
    (hlive : s.didMount = true) :
    (let s1 := resetForm cfg s JVal.undef
     s1.values = cfg.initialValues ∧ s1.initialValues = cfg.initialValues ∧
     s1.errors = [] ∧ s1.touched = JVal.obj [] ∧ s1.status = none ∧
     s1.submitCount = 0 ∧ s1.isSubmitting = false ∧ s1.isValidating = false) ∧
    (∀ nv : JVal, nv.truthy = true →
      let s2 := resetForm cfg s nv
      s2.values = nv ∧ s2.initialValues = nv ∧
      s2.errors = [] ∧ s2.touched = JVal.obj [] ∧ s2.status = none ∧
      s2.submitCount = 0 ∧ s2.isSubmitting = false ∧ s2.isValidating = false) := by
  constructor
  · simp [resetForm, setStateIfMounted, hlive, JVal.truthy]
  · intro nv hnv
    simp [resetForm, setStateIfMounted, hlive, hnv]

/-- Concrete mutated live holder state for the C7 witness. -/
def mutatedState : FormikState :=
  { values := JVal.obj [("a", JVal.str "edited")]
    errors := [("a", JVal.str "bad")]
    touched := JVal.obj [("a", JVal.bool true)]
    status := some (JVal.str "st")
    error := some (JVal.str "e")
    isSubmitting := true
    isValidating := true
    submitCount := 3
    initialValues := JVal.obj [("a", JVal.str "orig")]
    didMount := true }

/-- Configuration used by the C7 witness. -/
def c7Config : FormikConfig :=
  { initialValues := JVal.obj [("a", JVal.str "orig")], onReset := none }

theorem claim_C7_witness :
    mutatedState.didMount = true ∧
    (JVal.obj [("b", JVal.str "next")]).truthy = true ∧
    (resetForm c7Config mutatedState JVal.undef).values = c7Config.initialValues ∧
    (resetForm c7Config mutatedState JVal.undef).submitCount = 0 ∧
    (resetForm c7Config mutatedState (JVal.obj [("b", JVal.str "next")])).values =
      JVal.obj [("b", JVal.str "next")] :=
  ⟨rfl, by decide,
    (claim_C7_resetForm_restores c7Config mutatedState rfl).1.1,
    (claim_C7_resetForm_restores c7Config mutatedState rfl).1.2.2.2.2.2.1,
    ((claim_C7_resetForm_restores c7Config mutatedState rfl).2
      (JVal.obj [("b", JVal.str "next")]) (by decide)).1⟩

/-- C2: on a holder that stays live, a `submitForm` run whose merged
error tree has at least one key never invokes `onSubmit` and leaves
`isSubmitting` false once the promise settles; with zero keys, `onSubmit`
is invoked with the current values and the Action Facade. -/
theorem claim_C2_submit_gate (s : FormikState)
    (combinedErrors : List (String × JVal)) (hlive : s.didMount = true) :
    (combinedErrors ≠ [] →
      (submitForm s combinedErrors true).onSubmitCalled = false ∧
      (submitForm s combinedErrors true).state.isSubmitting = false) ∧
    (combinedErrors = [] →
      (submitForm s combinedErrors true).onSubmitCalled = true ∧
      (submitForm s combinedErrors true).onSubmitValues = some s.values ∧
      (submitForm s combinedErrors true).onSubmitActionsPassed = true) := by
  constructor
  · intro hne
    have hlen : ¬ combinedErrors.length = 0 := by
      simpa [List.length_eq_zero] using hne
    simp [submitForm, submitFormSettle, hlen, executeSubmit]
  · intro he
    subst he
    simp [submitForm, submitFormSettle, executeSubmit, submitFormStart_values]

/-- Concrete live holder state for the C2 witness. -/
def liveState : FormikState :=
  { values := JVal.obj [("name", JVal.str "")]
    errors := []
    touched := JVal.obj []
    status := none
    error := none
    isSubmitting := false
    isValidating := false
    submitCount := 0
    initialValues := JVal.obj [("name", JVal.str "")]
    didMount := true }

theorem claim_C2_witness :
    ([(("name" : String), JVal.str "required")] ≠ ([] : List (String × JVal))) ∧
    (submitForm liveState [("name", JVal.str "required")] true).onSubmitCalled = false ∧
    (submitForm liveState [("name", JVal.str "required")] true).state.isSubmitting = false ∧
    (submitForm liveState [] true).onSubmitCalled = true ∧
    (submitForm liveState [] true).onSubmitValues = some liveState.values :=
  ⟨by decide,
    ((claim_C2_submit_gate liveState [("name", JVal.str "required")] rfl).1 (by decide)).1,
    ((claim_C2_submit_gate liveState [("name", JVal.str "required")] rfl).1 (by decide)).2,
    ((claim_C2_submit_gate liveState [] rfl).2 rfl).1,
    ((claim_C2_submit_gate liveState [] rfl).2 rfl).2.1⟩

/-- C10: when the merged error tree has zero keys, `executeSubmit` runs
with no liveness check — `onSubmit` is invoked with the current values
and the Action Facade even when the holder was torn down while validation
was pending — whereas with a non-empty tree and a dead holder the
`isSubmitting := false` write is liveness-guarded, so the state at settle
time is left unchanged. -/
theorem claim_C10_submit_success_ignores_liveness (s : FormikState)
    (combinedErrors : List (String × JVal)) :
    (combinedErrors = [] →
      (submitForm s combinedErrors false).onSubmitCalled = true ∧
      (submitForm s combinedErrors false).onSubmitValues = some s.values ∧
      (submitForm s combinedErrors false).onSubmitActionsPassed = true) ∧
    (combinedErrors ≠ [] →
      (submitForm s combinedErrors false).onSubmitCalled = false ∧
      (submitForm s combinedErrors false).state =
        { submitFormStart s with didMount := false }) := by
  constructor
  · intro he
    subst he
    simp [submitForm, submitFormSettle, executeSubmit, submitFormStart_values]
  · intro hne
    have hlen : ¬ combinedErrors.length = 0 := by
      simpa [List.length_eq_zero] using hne
    simp [submitForm, submitFormSettle, hlen]

theorem claim_C10_witness :
    (submitForm liveState [] false).onSubmitCalled = true ∧
    (submitForm liveState [] false).onSubmitValues = some liveState.values ∧
    ([(("name" : String), JVal.str "required")] ≠ ([] : List (String × JVal))) ∧
    (submitForm liveState [("name", JVal.str "required")] false).state =
      { submitFormStart liveState with didMount := false } :=
  ⟨((claim_C10_submit_success_ignores_liveness liveState []).1 rfl).1,
    ((claim_C10_submit_success_ignores_liveness liveState []).1 rfl).2.1,
    by decide,
    ((claim_C10_submit_success_ignores_liveness liveState
      [("name", JVal.str "required")]).2 (by decide)).2⟩

/-- Configuration whose reset handler returns a pending computation that
fulfills with a (truthy) object distinct from the configured initial
values. -/
def c4Config : FormikConfig :=
  { initialValues := JVal.obj [("a", JVal.str "init")]
    onReset := some (OnResetBehavior.pendingFulfilled
      (JVal.obj [("a", JVal.str "fromHandler")])) }

/-- Live holder state for the C4 scenario. -/
def c4State : FormikState :=
  { values := JVal.obj [("a", JVal.str "edited")]
    errors := []
    touched := JVal.obj []
    status := none
    error := none
    isSubmitting := false
    isValidating := false
    submitCount := 0
    initialValues := JVal.obj [("a", JVal.str "init")]
    didMount := true }

/-- C4 counterexample: the deferred reset is chained as
`.then(this.resetForm)`, so `resetForm` receives the handler's
fulfillment value as `nextValues`; being truthy, that value — not the
configured initial values — becomes the new `values`. -/
theorem claim_C4_counterexample :
    (handleReset c4Config c4State).values = JVal.obj [("a", JVal.str "fromHandler")] ∧
    (handleReset c4Config c4State).values ≠ c4Config.initialValues := by
  decide

/-- C4 amended: with no handler or a handler returning a non-pending
value, `resetForm()` runs immediately and the new values are the
configured initial values; a handler returning a pending computation
defers `resetForm` until the computation fulfills, and the reset then
uses the handler's fulfillment value as the new values when it is truthy,
falling back to the configured initial values only when it is falsy
(e.g. a void fulfillment). -/
theorem claim_C4_handleReset_amended (cfg : FormikConfig) (s : FormikState)
    (hlive : s.didMount = true) :
    ((cfg.onReset = none ∨ cfg.onReset = some OnResetBehavior.value) →
      handleReset cfg s = resetForm cfg s JVal.undef ∧
      (handleReset cfg s).values = cfg.initialValues) ∧
    (∀ v : JVal, cfg.onReset = some (OnResetBehavior.pendingFulfilled v) →
      handleReset cfg s = resetForm cfg s v ∧
      (handleReset cfg s).values = (if v.truthy then v else cfg.initialValues)) := by
  constructor
  · intro h
    rcases h with h | h <;>
      simp [handleReset, h, resetForm, setStateIfMounted, hlive, JVal.truthy]
  · intro v h
    by_cases ht : v.truthy = true <;>
      simp [handleReset, h, resetForm, setStateIfMounted, hlive, ht]

theorem claim_C4_witness :
    c4State.didMount = true ∧
    c4Config.onReset = some (OnResetBehavior.pendingFulfilled
      (JVal.obj [("a", JVal.str "fromHandler")])) ∧
    handleReset c4Config c4State =
      resetForm c4Config c4State (JVal.obj [("a", JVal.str "fromHandler")]) ∧
    (handleReset c4Config c4State).values =
      (if (JVal.obj [("a", JVal.str "fromHandler")]).truthy then
        JVal.obj [("a", JVal.str "fromHandler")]
      else c4Config.initialValues) :=
  ⟨rfl, rfl,
    ((claim_C4_handleReset_amended c4Config c4State rfl).2
      (JVal.obj [("a", JVal.str "fromHandler")]) rfl).1,
    ((claim_C4_handleReset_amended c4Config c4State rfl).2
      (JVal.obj [("a", JVal.str "fromHandler")]) rfl).2⟩

theorem find?_append {α : Type} (p : α → Bool) :
    ∀ (l1 l2 : List α), (l1 ++ l2).find? p =
      (match l1.find? p with
       | some x => some x
       | none => l2.find? p) := by
  intro l1 l2
  induction l1 with
  | nil => simp
  | cons a rest ih =>
    by_cases ha : p a = true
    · simp [List.find?_cons, ha]
    · simp only [List.cons_append, List.find?_cons, ha]
      simpa [ha] using ih

theorem yupFoldInvariant :
    ∀ (rest processed : List YupInnerError) (fs : List (String × JVal)),
      (∀ err ∈ rest, splitOnDot err.path = [err.path] ∧ err.message ≠ "") →
      (∀ err ∈ processed, err.message ≠ "") →
      (∀ p : String, (lookupField fs p).getD JVal.undef =
        (match processed.find? (fun err => err.path == p) with
         | some err => JVal.str err.message
         | none => JVal.undef)) →
      ∃ gs : List (String × JVal),
        rest.foldl yupFoldStep (JVal.obj fs) = JVal.obj gs ∧
        ∀ p : String, (lookupField gs p).getD JVal.undef =
          (match (processed ++ rest).find? (fun err => err.path == p) with
           | some err => JVal.str err.message
           | none => JVal.undef) := by
  intro rest
  induction rest with
  | nil =>
    intro processed fs _ _ hinv
    exact ⟨fs, rfl, by simpa using hinv⟩
  | cons err rest2 ih =>
    intro processed fs hseg hmsg hinv
    obtain ⟨hs, hm⟩ := hseg err (List.mem_cons_self _ _)
    have hseg2 : ∀ e ∈ rest2, splitOnDot e.path = [e.path] ∧ e.message ≠ "" :=
      fun e he => hseg e (List.mem_cons_of_mem _ he)
    have happ : processed ++ err :: rest2 = (processed ++ [err]) ++ rest2 := by
      simp
    rw [happ]
    cases hfind : processed.find? (fun e => e.path == err.path) with
    | some e0 =>
      have he0mem : e0 ∈ processed := List.mem_of_find?_eq_some hfind
      have he0msg : e0.message ≠ "" := hmsg e0 he0mem
      have hcur : (lookupField fs err.path).getD JVal.undef = JVal.str e0.message := by
        rw [hinv err.path, hfind]
      have hstep : yupFoldStep (JVal.obj fs) err = JVal.obj fs := by
        simp only [yupFoldStep, jsGetProp, hcur, JVal.truthy]
        simp [he0msg]
      rw [List.foldl_cons, hstep]
      apply ih (processed ++ [err]) fs
      · exact hseg2
      · intro e he
        rcases List.mem_append.mp he with h1 | h1
        · exact hmsg e h1
        · simp at h1
          subst h1
          exact hm
      · intro p
        rw [hinv p, find?_append]
        cases hp : processed.find? (fun e => e.path == p) with
        | some x => simp
        | none =>
          simp only [List.find?_cons, List.find?_nil]
          cases hep : (err.path == p) with
          | true =>
            exfalso
            have : err.path = p := by simpa using hep
            subst this
            rw [hfind] at hp
            cases hp
          | false => simp
    | none =>
      have hcur : (lookupField fs err.path).getD JVal.undef = JVal.undef := by
        rw [hinv err.path, hfind]
      have hstep : yupFoldStep (JVal.obj fs) err =
          JVal.obj (setField fs err.path (JVal.str err.message)) := by
        simp only [yupFoldStep, jsGetProp, hcur, JVal.truthy]
        simp [setIn, hs, setInPath]
      rw [List.foldl_cons, hstep]
      apply ih (processed ++ [err]) (setField fs err.path (JVal.str err.message))
      · exact hseg2
      · intro e he
        rcases List.mem_append.mp he with h1 | h1
        · exact hmsg e h1
        · simp at h1
          subst h1
          exact hm
      · intro p
        rw [lookupField_setField, find?_append]
        by_cases hp : err.path = p
        · subst hp
          rw [hfind]
          simp
        · have hep : (err.path == p) = false := by simpa using hp
          rw [if_neg hp, hinv p]
          cases hq : processed.find? (fun e => e.path == p) with
          | some x => simp
          | none => simp [List.find?_cons, hep]

/-- Yup error whose inner list repeats a nested (dotted) path: the guard
`!errors['a.b']` reads a literal top-level property that `setIn` never
creates, so it never fires and the later message overwrites the earlier
one. -/
def c5NestedYupError : YupValidationError :=
  { path := "a.b"
    message := "outer"
    inner := [{ path := "a.b", message := "first" },
              { path := "a.b", message := "second" }] }

/-- C5 counterexample: for two inner errors at the same dotted path the
resulting tree carries the second (last) message at that path, not the
first — the claimed first-error-per-path-wins rule fails for nested
paths. -/
theorem claim_C5_counterexample :
    yupToFormErrors c5NestedYupError =
      JVal.obj [("a", JVal.obj [("b", JVal.str "second")])] ∧
    JVal.obj [("a", JVal.obj [("b", JVal.str "second")])] ≠
      JVal.obj [("a", JVal.obj [("b", JVal.str "first")])] := by
  decide

/-- C5 amended: with an empty inner list the error's message is set
directly at its path.  With a non-empty inner list, a message is set at
an error's path only when the accumulated tree's top-level property named
by the literal whole path string is not truthy; consequently, for
single-segment (undotted) paths with non-empty messages, the first error
per path wins — the resulting tree's entry at each path is the first
supplied message for that path — while for dotted paths the guard never
matches and the last error per path wins (as the counterexample shows). -/
theorem claim_C5_yupToFormErrors_amended (e : YupValidationError)
    (hseg : ∀ err ∈ e.inner, splitOnDot err.path = [err.path] ∧ err.message ≠ "") :
    (e.inner = [] →
      yupToFormErrors e = setIn (JVal.obj []) e.path (JVal.str e.message)) ∧
    (e.inner ≠ [] →
      ∀ p : String, jsGetProp (yupToFormErrors e) p =
        (match e.inner.find? (fun err => err.path == p) with
         | some err => JVal.str err.message
         | none => JVal.undef)) := by
  constructor
  · intro h
    simp [yupToFormErrors, h]
  · intro hne p
    have hlen : ¬ e.inner.length = 0 := by
      simpa [List.length_eq_zero] using hne
    obtain ⟨gs, hgs, hinv⟩ := yupFoldInvariant e.inner [] [] hseg
      (by intro err h; cases h)
      (by intro q; simp [lookupField])
    rw [yupToFormErrors, if_neg hlen, hgs]
    simpa [jsGetProp] using hinv p

/-- Yup error with undotted paths, one of them repeated, for the C5
witness. -/
def c5TopLevelYupError : YupValidationError :=
  { path := "name"
    message := "outer"
    inner := [{ path := "name", message := "required" },
              { path := "name", message := "late" },
              { path := "age", message := "nan" }] }

theorem claim_C5_witness :
    (∀ err ∈ c5TopLevelYupError.inner,
      splitOnDot err.path = [err.path] ∧ err.message ≠ "") ∧
    c5TopLevelYupError.inner ≠ [] ∧
    jsGetProp (yupToFormErrors c5TopLevelYupError) "name" =
      (match c5TopLevelYupError.inner.find? (fun err => err.path == "name") with
       | some err => JVal.str err.message
       | none => JVal.undef) ∧
    jsGetProp (yupToFormErrors c5TopLevelYupError) "name" = JVal.str "required" :=
  ⟨by decide, by decide,
    (claim_C5_yupToFormErrors_amended c5TopLevelYupError (by decide)).2
      (by decide) "name",
    by decide⟩

theorem cacheLookup_eq_some {e : Option (List Ref × Ref)} {k : List Ref} {r : Ref}
    (h : cacheLookup e k = some r) : e = some (k, r) := by
  cases e with
  | none => simp [cacheLookup] at h
  | some kr =>
    simp only [cacheLookup] at h
    split at h
    · next heq => cases h; cases kr; simp_all
    · cases h

theorem runFieldLevelValidations_proj (cfg : OrchConfig) (v : Ref) (st : OrchState) :
    (runFieldLevelValidations cfg v st).2.fieldValidatorCalls =
      st.fieldValidatorCalls + cfg.fieldsWithValidation.length ∧
    (runFieldLevelValidations cfg v st).2.schemaValidateCalls = st.schemaValidateCalls ∧
    (runFieldLevelValidations cfg v st).2.validateHandlerCalls = st.validateHandlerCalls ∧
    (runFieldLevelValidations cfg v st).2.mergeCalls = st.mergeCalls ∧
    (runFieldLevelValidations cfg v st).2.lastYupValidationResult =
      st.lastYupValidationResult := by
  unfold runFieldLevelValidations OrchState.alloc
  split
  · simp
  · split <;> simp

theorem runValidationSchema_proj (cfg : OrchConfig) (v : Ref) (st : OrchState) :
    (runValidationSchema cfg v st).2.fieldValidatorCalls = st.fieldValidatorCalls ∧
    (runValidationSchema cfg v st).2.validateHandlerCalls = st.validateHandlerCalls ∧
    (runValidationSchema cfg v st).2.mergeCalls = st.mergeCalls := by
  unfold runValidationSchema OrchState.alloc
  cases hb : cfg.schemaBehavior <;> simp <;> split <;> simp

theorem runValidateHandler_proj (cfg : OrchConfig) (v : Ref) (st : OrchState) :
    (runValidateHandler cfg v st).2.validateHandlerCalls = st.validateHandlerCalls + 1 ∧
    (runValidateHandler cfg v st).2.fieldValidatorCalls = st.fieldValidatorCalls ∧
    (runValidateHandler cfg v st).2.schemaValidateCalls = st.schemaValidateCalls ∧
    (runValidateHandler cfg v st).2.mergeCalls = st.mergeCalls ∧
    (runValidateHandler cfg v st).2.lastYupValidationResult =
      st.lastYupValidationResult := by
  unfold runValidateHandler OrchState.alloc
  cases hb : cfg.validateBehavior <;> simp <;> (try split) <;> simp

theorem runValidations_counts (cfg : OrchConfig) (v : Ref) (st : OrchState) :
    (runValidations cfg v st).2.fieldValidatorCalls =
      st.fieldValidatorCalls + cfg.fieldsWithValidation.length ∧
    (runValidations cfg v st).2.validateHandlerCalls =
      st.validateHandlerCalls + (if cfg.hasValidateProp then 1 else 0) := by
  unfold runValidations
  rcases h1 : runFieldLevelValidations cfg v st with ⟨r1, st1⟩
  have f1 := runFieldLevelValidations_proj cfg v st
  rw [h1] at f1
  simp only at f1
  by_cases hs : cfg.hasValidationSchema = true
  · rcases h2 : runValidationSchema cfg v st1 with ⟨r2, st2⟩
    have f2 := runValidationSchema_proj cfg v st1
    rw [h2] at f2
    simp only at f2
    by_cases hv : cfg.hasValidateProp = true
    · rcases h3 : runValidateHandler cfg v st2 with ⟨r3, st3⟩
      have f3 := runValidateHandler_proj cfg v st2
      rw [h3] at f3
      simp only at f3
      simp only [h1, hs, if_true, h2, hv, h3]
      cases hm : cacheLookup st3.lastValidationResults [r1, r2, r3] <;>
        simp [hm, h1, h2, h3, OrchState.alloc, f1, f2, f3]
    · simp only [h1, hs, if_true, h2, hv, if_false]
      cases hm : cacheLookup st2.lastValidationResults [r1, r2, emptyObjectRef] <;>
        simp [hm, h1, h2, OrchState.alloc, f1, f2, hv]
  · by_cases hv : cfg.hasValidateProp = true
    · rcases h3 : runValidateHandler cfg v st1 with ⟨r3, st3⟩
      have f3 := runValidateHandler_proj cfg v st1
      rw [h3] at f3
      simp only at f3
      simp only [h1, hs, if_false, hv, if_true, h3]
      cases hm : cacheLookup st3.lastValidationResults [r1, emptyObjectRef, r3] <;>
        simp [hm, h1, h3, OrchState.alloc, f1, f3]
    · simp only [h1, hs, if_false, hv]
      cases hm : cacheLookup st1.lastValidationResults
          [r1, emptyObjectRef, emptyObjectRef] <;>
        simp [hm, h1, OrchState.alloc, f1, hv]

theorem runValidations_schemaCalls_noSchema (cfg : OrchConfig) (v : Ref)
    (st : OrchState) (hs : cfg.hasValidationSchema = false) :
    (runValidations cfg v st).2.schemaValidateCalls = st.schemaValidateCalls := by
  unfold runValidations
  rcases h1 : runFieldLevelValidations cfg v st with ⟨r1, st1⟩
  have f1 := runFieldLevelValidations_proj cfg v st
  rw [h1] at f1
  simp only at f1
  by_cases hv : cfg.hasValidateProp = true
  · rcases h3 : runValidateHandler cfg v st1 with ⟨r3, st3⟩
    have f3 := runValidateHandler_proj cfg v st1
    rw [h3] at f3
    simp only at f3
    simp only [h1, hs, Bool.false_eq_true, if_false, hv, if_true, h3]
    cases hm : cacheLookup st3.lastValidationResults [r1, emptyObjectRef, r3] <;>
      simp [hm, h1, h3, OrchState.alloc, f1, f3]
  · simp only [h1, hs, Bool.false_eq_true, if_false, hv]
    cases hm : cacheLookup st1.lastValidationResults
        [r1, emptyObjectRef, emptyObjectRef] <;>
      simp [hm, h1, OrchState.alloc, f1]

theorem runValidationSchema_stable (cfg : OrchConfig) (v : Ref) (st : OrchState)
    (r : Ref)
    (hb : cfg.schemaBehavior = ValidationSchemaBehavior.schemaObject r ∨
      cfg.schemaBehavior = ValidationSchemaBehavior.factoryStable r) :
    ∃ rho : Ref, (runValidationSchema cfg v st).1 = rho ∧
      (runValidationSchema cfg v st).2.lastYupValidationResult = some ([r, v], rho) := by
  have hstep : runValidationSchema cfg v st =
      (match cacheLookup st.lastYupValidationResult [r, v] with
       | some rho => (rho, st)
       | none =>
         (st.fresh, { st with
           schemaValidateCalls := st.schemaValidateCalls + 1
           fresh := st.fresh + 1
           lastYupValidationResult := some ([r, v], st.fresh) })) := by
    rcases hb with hb | hb <;>
      simp [runValidationSchema, hb, OrchState.alloc]
  rw [hstep]
  cases hc : cacheLookup st.lastYupValidationResult [r, v] with
  | some rho =>
    have := cacheLookup_eq_some hc
    exact ⟨rho, by simp, by simp [this]⟩
  | none => exact ⟨st.fresh, by simp, by simp⟩

theorem runValidationSchema_hit (cfg : OrchConfig) (v : Ref) (st : OrchState)
    (r rho : Ref)
    (hb : cfg.schemaBehavior = ValidationSchemaBehavior.schemaObject r ∨
      cfg.schemaBehavior = ValidationSchemaBehavior.factoryStable r)
    (hy : st.lastYupValidationResult = some ([r, v], rho)) :
    runValidationSchema cfg v st = (rho, st) := by
  rcases hb with hb | hb <;>
    simp [runValidationSchema, hb, hy, cacheLookup]

theorem runValidations_lastYup_stable (cfg : OrchConfig) (v : Ref) (st : OrchState)
    (r : Ref) (hs : cfg.hasValidationSchema = true)
    (hb : cfg.schemaBehavior = ValidationSchemaBehavior.schemaObject r ∨
      cfg.schemaBehavior = ValidationSchemaBehavior.factoryStable r) :
    ∃ rho : Ref,
      (runValidations cfg v st).2.lastYupValidationResult = some ([r, v], rho) := by
  unfold runValidations
  rcases h1 : runFieldLevelValidations cfg v st with ⟨r1, st1⟩
  rcases h2 : runValidationSchema cfg v st1 with ⟨r2, st2⟩
  obtain ⟨rho, hrho1, hrho2⟩ := runValidationSchema_stable cfg v st1 r hb
  rw [h2] at hrho1 hrho2
  simp only at hrho1 hrho2
  by_cases hv : cfg.hasValidateProp = true
  · rcases h3 : runValidateHandler cfg v st2 with ⟨r3, st3⟩
    have f3 := runValidateHandler_proj cfg v st2
    rw [h3] at f3
    simp only at f3
    refine ⟨rho, ?_⟩
    simp only [h1, hs, if_true, h2, hv, h3]
    cases hm : cacheLookup st3.lastValidationResults [r1, r2, r3] <;>
      simp [hm, h1, h2, h3, OrchState.alloc, f3, hrho2]
  · refine ⟨rho, ?_⟩
    simp only [h1, hs, if_true, h2, hv]
    cases hm : cacheLookup st2.lastValidationResults [r1, r2, emptyObjectRef] <;>
      simp [hm, h1, h2, OrchState.alloc, hrho2]

theorem runValidations_schemaCalls_hit (cfg : OrchConfig) (v : Ref) (st : OrchState)
    (r rho : Ref)
    (hb : cfg.schemaBehavior = ValidationSchemaBehavior.schemaObject r ∨
      cfg.schemaBehavior = ValidationSchemaBehavior.factoryStable r)
    (hy : st.lastYupValidationResult = some ([r, v], rho)) :
    (runValidations cfg v st).2.schemaValidateCalls = st.schemaValidateCalls := by
  by_cases hs : cfg.hasValidationSchema = true
  · unfold runValidations
    rcases h1 : runFieldLevelValidations cfg v st with ⟨r1, st1⟩
    have f1 := runFieldLevelValidations_proj cfg v st
    rw [h1] at f1
    simp only at f1
    have hy1 : st1.lastYupValidationResult = some ([r, v], rho) := by
      rw [f1.2.2.2.2, hy]
    have h2 := runValidationSchema_hit cfg v st1 r rho hb hy1
    by_cases hv : cfg.hasValidateProp = true
    · rcases h3 : runValidateHandler cfg v st1 with ⟨r3, st3⟩
      have f3 := runValidateHandler_proj cfg v st1
      rw [h3] at f3
      simp only at f3
      simp only [h1, hs, if_true, h2, hv, h3]
      cases hm : cacheLookup st3.lastValidationResults [r1, rho, r3] <;>
        simp [hm, h1, h2, h3, OrchState.alloc, f1, f3]
    · simp only [h1, hs, if_true, h2, hv]
      cases hm : cacheLookup st1.lastValidationResults [r1, rho, emptyObjectRef] <;>
        simp [hm, h1, h2, OrchState.alloc, f1]
  · exact runValidations_schemaCalls_noSchema cfg v st
      (by simpa using hs)

theorem runValidations_second_result (cfg : OrchConfig) (v : Ref) (st0 : OrchState)
    (hschema : cfg.hasValidationSchema = false ∨
      ∃ r, cfg.schemaBehavior = ValidationSchemaBehavior.schemaObject r ∨
        cfg.schemaBehavior = ValidationSchemaBehavior.factoryStable r)
    (hfield : ∀ f, cfg.fieldError v f = false ∧ cfg.fieldValidatorAsync v f = false)
    (hhandler : cfg.hasValidateProp = false ∨
      cfg.validateBehavior = ValidateHandlerBehavior.returnsUndefined ∨
      ∃ r, cfg.validateBehavior = ValidateHandlerBehavior.returnsStableObject r) :
    (runValidations cfg v (runValidations cfg v st0).2).1 =
      (runValidations cfg v st0).1 ∧
    (runValidations cfg v (runValidations cfg v st0).2).2.mergeCalls =
      (runValidations cfg v st0).2.mergeCalls := by
  have hL1 : ∀ st : OrchState, runFieldLevelValidations cfg v st =
      (emptyObjectRef,
        { st with fieldValidatorCalls :=
          st.fieldValidatorCalls + cfg.fieldsWithValidation.length }) := by
    intro st
    have hany : cfg.fieldsWithValidation.any
        (fun f => cfg.fieldValidatorAsync v f) = false := by
      simp only [List.any_eq_false]
      intro f _
      simp [(hfield f).2]
    have hall : cfg.fieldsWithValidation.all
        (fun f => !(cfg.fieldError v f)) = true := by
      simp only [List.all_eq_true]
      intro f _
      simp [(hfield f).1]
    simp [runFieldLevelValidations, hany, hall]
  obtain ⟨rho, hHandler⟩ : ∃ rho : Ref, ∀ st : OrchState,
      (if cfg.hasValidateProp then runValidateHandler cfg v st
       else (emptyObjectRef, st)) =
        (rho, { st with validateHandlerCalls :=
          st.validateHandlerCalls + (if cfg.hasValidateProp then 1 else 0) }) := by
    rcases hhandler with hv | hh | ⟨r, hh⟩
    · exact ⟨emptyObjectRef, fun st => by simp [hv]⟩
    · by_cases hv : cfg.hasValidateProp
      · exact ⟨emptyObjectRef, fun st => by simp [hv, runValidateHandler, hh]⟩
      · exact ⟨emptyObjectRef, fun st => by simp [hv]⟩
    · by_cases hv : cfg.hasValidateProp
      · exact ⟨r, fun st => by simp [hv, runValidateHandler, hh]⟩
      · exact ⟨emptyObjectRef, fun st => by simp [hv]⟩
  have cacheLookup_hit : ∀ (k : List Ref) (r : Ref),
      cacheLookup (some (k, r)) k = some r := by
    intro k r
    simp [cacheLookup]
  cases hs : cfg.hasValidationSchema
  case false =>
    cases hlv : cacheLookup st0.lastValidationResults
        [emptyObjectRef, emptyObjectRef, rho] with
    | some m =>
      simp [runValidations, hL1, hs, hHandler, hlv, cacheLookup_hit, OrchState.alloc]
    | none =>
      simp [runValidations, hL1, hs, hHandler, hlv, cacheLookup_hit, OrchState.alloc]
  case true =>
    rcases hschema with hsf | ⟨r, hb⟩
    · rw [hs] at hsf
      cases hsf
    · have hSchemaStep : ∀ st : OrchState, runValidationSchema cfg v st =
          (match cacheLookup st.lastYupValidationResult [r, v] with
           | some rho2 => (rho2, st)
           | none =>
             (st.fresh, { st with
               schemaValidateCalls := st.schemaValidateCalls + 1
               fresh := st.fresh + 1
               lastYupValidationResult := some ([r, v], st.fresh) })) := by
        intro st
        rcases hb with hb | hb <;>
          simp [runValidationSchema, hb, OrchState.alloc]
      cases hys : cacheLookup st0.lastYupValidationResult [r, v] with
      | some r2 =>
        have hyv := cacheLookup_eq_some hys
        cases hlv : cacheLookup st0.lastValidationResults
            [emptyObjectRef, r2, rho] with
        | some m =>
          simp [runValidations, hSchemaStep, hL1, hs, hHandler, hys, hlv,
            cacheLookup_hit, OrchState.alloc]
        | none =>
          simp [runValidations, hSchemaStep, hL1, hs, hHandler, hys, hlv,
            cacheLookup_hit, OrchState.alloc]
      | none =>
        cases hlv : cacheLookup st0.lastValidationResults
            [emptyObjectRef, st0.fresh, rho] with
        | some m =>
          simp [runValidations, hSchemaStep, hL1, hs, hHandler, hys, hlv,
            cacheLookup_hit, OrchState.alloc]
        | none =>
          simp [runValidations, hSchemaStep, hL1, hs, hHandler, hys, hlv,
            cacheLookup_hit, OrchState.alloc]

/-- C1 amended: on the second of two `runValidations` calls with the
same values reference and no intervening state change, every field-level
validator and the whole-form `validate` handler are invoked again
(unconditionally — they run before the identity cache is consulted).
When the schema prop resolves to a stable reference across the two calls
(no schema configured, a plain schema object, or a factory returning the
same object — a factory returning a fresh schema misses the
`[schema, values]` cache), the schema's validate operation is not invoked
the second time.  When additionally every field-level validator is
synchronous and produces no truthy error and the `validate` handler
returns `undefined` or a stable errors-object reference — so all three
per-source result references repeat — the merge is not recomputed and the
second call resolves to the same error-tree object reference as the
first call's. -/
theorem claim_C1_second_call_cache (cfg : OrchConfig) (v : Ref) (st0 : OrchState) :
    (runValidations cfg v (runValidations cfg v st0).2).2.fieldValidatorCalls =
      (runValidations cfg v st0).2.fieldValidatorCalls +
        cfg.fieldsWithValidation.length ∧
    (runValidations cfg v (runValidations cfg v st0).2).2.validateHandlerCalls =
      (runValidations cfg v st0).2.validateHandlerCalls +
        (if cfg.hasValidateProp then 1 else 0) ∧
    ((cfg.hasValidationSchema = false ∨
      ∃ r, cfg.schemaBehavior = ValidationSchemaBehavior.schemaObject r ∨
        cfg.schemaBehavior = ValidationSchemaBehavior.factoryStable r) →
      (runValidations cfg v (runValidations cfg v st0).2).2.schemaValidateCalls =
        (runValidations cfg v st0).2.schemaValidateCalls) ∧
    ((cfg.hasValidationSchema = false ∨
      ∃ r, cfg.schemaBehavior = ValidationSchemaBehavior.schemaObject r ∨
        cfg.schemaBehavior = ValidationSchemaBehavior.factoryStable r) →
     (∀ f, cfg.fieldError v f = false ∧ cfg.fieldValidatorAsync v f = false) →
     (cfg.hasValidateProp = false ∨
      cfg.validateBehavior = ValidateHandlerBehavior.returnsUndefined ∨
      ∃ r, cfg.validateBehavior = ValidateHandlerBehavior.returnsStableObject r) →
      (runValidations cfg v (runValidations cfg v st0).2).1 =
        (runValidations cfg v st0).1 ∧
      (runValidations cfg v (runValidations cfg v st0).2).2.mergeCalls =
        (runValidations cfg v st0).2.mergeCalls) := by
  refine ⟨(runValidations_counts cfg v _).1, (runValidations_counts cfg v _).2,
    ?_, ?_⟩
  · intro hschema
    rcases hschema with hsf | ⟨r, hb⟩
    · exact runValidations_schemaCalls_noSchema cfg v _ hsf
    · by_cases hs : cfg.hasValidationSchema = true
      · obtain ⟨rho, hy⟩ := runValidations_lastYup_stable cfg v st0 r hs hb
        exact runValidations_schemaCalls_hit cfg v _ r rho hb hy
      · exact runValidations_schemaCalls_noSchema cfg v _ (by simpa using hs)
  · intro hschema hfield hhandler
    exact runValidations_second_result cfg v st0 hschema hfield hhandler

/-- Orchestrator configuration with one registered synchronous
field-level validator (never producing an error), a plain
`validationSchema` object, and a whole-form `validate` prop that returns
`undefined`. -/
def c1Config : OrchConfig :=
  { fieldsWithValidation := ["name"]
    fieldError := fun _ _ => false
    fieldValidatorAsync := fun _ _ => false
    hasValidationSchema := true
    schemaBehavior := ValidationSchemaBehavior.schemaObject 100
    hasValidateProp := true
    validateBehavior := ValidateHandlerBehavior.returnsUndefined }

/-- C1 counterexample: calling `runValidations` twice with the same
values reference and no intervening state change still invokes the
field-level validator and the whole-form `validate` handler a second time
(their invocation counters reach 2) — both are re-run before the identity
cache is even consulted; only the schema validate is skipped (its counter
stays at 1).  The second promise does resolve to the first call's merged
tree reference, so the claim's zero-invocations part is what fails. -/
theorem claim_C1_counterexample :
    (runValidations c1Config 7 {}).2.fieldValidatorCalls = 1 ∧
    (runValidations c1Config 7 {}).2.validateHandlerCalls = 1 ∧
    (runValidations c1Config 7 {}).2.schemaValidateCalls = 1 ∧
    (runValidations c1Config 7 (runValidations c1Config 7 {}).2).2.fieldValidatorCalls = 2 ∧
    (runValidations c1Config 7 (runValidations c1Config 7 {}).2).2.validateHandlerCalls = 2 ∧
    (runValidations c1Config 7 (runValidations c1Config 7 {}).2).2.schemaValidateCalls = 1 ∧
    (runValidations c1Config 7 (runValidations c1Config 7 {}).2).1 =
      (runValidations c1Config 7 {}).1 := by
  decide

theorem claim_C1_witness :
    (∃ r, c1Config.schemaBehavior = ValidationSchemaBehavior.schemaObject r ∨
      c1Config.schemaBehavior = ValidationSchemaBehavior.factoryStable r) ∧
    (∀ f, c1Config.fieldError 7 f = false ∧ c1Config.fieldValidatorAsync 7 f = false) ∧
    c1Config.validateBehavior = ValidateHandlerBehavior.returnsUndefined ∧
    (runValidations c1Config 7 (runValidations c1Config 7 {}).2).2.fieldValidatorCalls =
      (runValidations c1Config 7 {}).2.fieldValidatorCalls +
        c1Config.fieldsWithValidation.length ∧
    (runValidations c1Config 7 (runValidations c1Config 7 {}).2).2.validateHandlerCalls =
      (runValidations c1Config 7 {}).2.validateHandlerCalls +
        (if c1Config.hasValidateProp then 1 else 0) ∧
    (runValidations c1Config 7 (runValidations c1Config 7 {}).2).2.schemaValidateCalls =
      (runValidations c1Config 7 {}).2.schemaValidateCalls ∧
    (runValidations c1Config 7 (runValidations c1Config 7 {}).2).1 =
      (runValidations c1Config 7 {}).1 ∧
    (runValidations c1Config 7 (runValidations c1Config 7 {}).2).2.mergeCalls =
      (runValidations c1Config 7 {}).2.mergeCalls :=
  ⟨⟨100, Or.inl rfl⟩, fun _ => ⟨rfl, rfl⟩, rfl,
    (claim_C1_second_call_cache c1Config 7 {}).1,
    (claim_C1_second_call_cache c1Config 7 {}).2.1,
    (claim_C1_second_call_cache c1Config 7 {}).2.2.1 (Or.inr ⟨100, Or.inl rfl⟩),
    ((claim_C1_second_call_cache c1Config 7 {}).2.2.2 (Or.inr ⟨100, Or.inl rfl⟩)
      (fun _ => ⟨rfl, rfl⟩) (Or.inr (Or.inl rfl))).1,
    ((claim_C1_second_call_cache c1Config 7 {}).2.2.2 (Or.inr ⟨100, Or.inl rfl⟩)
      (fun _ => ⟨rfl, rfl⟩) (Or.inr (Or.inl rfl))).2⟩
